import Mathlib

/-!
Shallow embedding of `src/auto_commit.py` (class `AutoCommitSystem`).

The program is a scheduler-driven auto-committer.  Its operational core,
embedded below, consists of:

* `modifyLines` — the pure line mutation performed by
  `AutoCommitSystem.modify_file_content` (lines 150-175): it draws an
  action among `add` / `remove` / `modify` and edits the list of lines.
* `modify_file_content` — the file-level wrapper (lines 140-191): read the
  file, write a `.bak` backup, mutate, write back; on an exception restore
  the backup if one exists.  Exception points are made explicit through
  `FailPoint`.
* `generate_commit_message` (lines 114-138) — random message from three
  fixed word lists.
* `commit_changes` (lines 193-235) — pick tracked files with interesting
  extensions, synthetically modify them, `git add` each modified file and
  `git commit` once, with the results of the `git add` / `git commit`
  subprocesses discarded.  Git state is modelled per tracked path as the
  triple (HEAD content, index content, working-tree content); `git add p`
  copies the working tree of `p` into the index, `git commit` copies the
  whole index into HEAD.
* `add_repository` / `remove_repository` (lines 64-86) — config list edits.

Randomness (`random.choice`, `random.randint`, `random.sample`,
timestamps) is passed in explicitly as draw parameters, so every function
is a pure function of its inputs.
-/

namespace AutoCommit

/-- The three branches drawn by `random.choice(['add', 'remove', 'modify'])`
at line 151 of `modify_file_content`. -/
inductive Action where
  | add : Action
  | remove : Action
  | modify : Action
deriving DecidableEq

/-- The comment line inserted by the `add` branch (line 160):
`f"# Auto-generated comment: {timestamp}\n"` with the timestamp drawn at
insertion time. -/
def autoComment (stamp : String) : String :=
  "# Auto-generated comment: " ++ stamp ++ "\n"

/-- The rewritten line produced by the `modify` branch (lines 173-174):
`f"# Modified: {lines[pos].strip()} - {timestamp}\n"`. -/
def modifiedLine (stamp : String) (s : String) : String :=
  "# Modified: " ++ s.trim ++ " - " ++ stamp ++ "\n"

/-- The random draws consumed by one call of `modify_file_content`:
the drawn action, the drawn change count `num_changes = randint(min_lines,
max_lines)`, and per-iteration timestamp and position streams (each loop
iteration calls `datetime.now()` and `random.randint` afresh). -/
structure ModDraw where
  action : Action
  num : Nat
  stamp : Nat → String
  pos : Nat → Nat

/-- Pure core of `modify_file_content` (source lines 150-175).

* `add` branch: `num` times, insert an auto-generated comment at the drawn
  position (`randint(0, len(lines))`, always in range in the source).
* `remove` branch: guarded by `len(lines) > num_changes * 2`; deletes
  `min(num_changes, len(lines) // 3)` lines, the loop bound being computed
  from the length before any deletion.
* the `else` branch (reached for the `modify` draw, and also for a
  `remove` draw whose guard fails, exactly as the Python
  `if / elif ... and ... / else` chain does): rewrites
  `min(num_changes, len(lines))` lines in place. -/
def modifyLines (a : Action) (num : Nat) (stamp : Nat → String) (pos : Nat → Nat)
    (lines : List String) : List String :=
  match a with
  | Action.add =>
      (List.range num).foldl (fun acc i => acc.insertIdx (pos i) (autoComment (stamp i))) lines
  | Action.remove =>
      if num * 2 < lines.length then
        (List.range (min num (lines.length / 3))).foldl
          (fun acc i => acc.eraseIdx (pos i)) lines
      else
        (List.range (min num lines.length)).foldl
          (fun acc i => acc.set (pos i) (modifiedLine (stamp i) (acc.getD (pos i) ""))) lines
  | Action.modify =>
      (List.range (min num lines.length)).foldl
        (fun acc i => acc.set (pos i) (modifiedLine (stamp i) (acc.getD (pos i) ""))) lines

/-- The slice of the file system `modify_file_content` touches: the target
file and its `.bak` sibling, each `Option` (present with content, or
absent/unreadable). -/
structure FS where
  file : Option (List String)
  bak : Option (List String)
deriving DecidableEq

/-- Where, if anywhere, an exception interrupts `modify_file_content`:
`atRead` models `open`/`readlines` raising (missing file or a
`UnicodeDecodeError`) before the backup of this call is written; `atWrite`
models the final write-back raising after the backup was written. The
in-memory list mutation itself (lines 150-175) cannot raise: every drawn
index is produced in range by `randint` and the loops run zero times on
inputs that would make an index invalid. -/
inductive FailPoint where
  | ok : FailPoint
  | atRead : FailPoint
  | atWrite : FailPoint
deriving DecidableEq

/-- The `except` handler of `modify_file_content` (lines 183-191): if a
`.bak` file exists, `os.replace` moves it onto the target file (so the
backup file itself disappears); otherwise nothing is touched. -/
def restoreBak (fs : FS) : FS :=
  match fs.bak with
  | Option.some b => { file := Option.some b, bak := Option.none }
  | Option.none => fs

/-- `modify_file_content` (source lines 140-191) over the `FS` slice.

Success path: read `lines`, write the backup `file_path.bak`, mutate via
`modifyLines`, write back, return `True`.  On `atRead` the exception fires
before this call's backup is written, so the handler restores whatever
`.bak` file currently exists (possibly a stale one from an earlier call).
On `atWrite` the write-back destroys the file content (modelled as a
truncated file) but the handler restores the freshly written backup. -/
def modify_file_content (fs : FS) (d : ModDraw) (fp : FailPoint) : FS × Bool :=
  match fs.file, fp with
  | Option.none, _ => (restoreBak fs, false)
  | Option.some _, FailPoint.atRead => (restoreBak fs, false)
  | Option.some l, FailPoint.atWrite =>
      (restoreBak { file := Option.some [], bak := Option.some l }, false)
  | Option.some l, FailPoint.ok =>
      ({ file := Option.some (modifyLines d.action d.num d.stamp d.pos l),
         bak := Option.some l }, true)

/-- The per-path git state of one tracked file: its content at `HEAD`, in
the index (staging area), and in the working tree, each as a list of
lines. -/
structure FileState where
  head : List String
  index : List String
  worktree : List String
deriving DecidableEq

/-- One repository: the list of git-tracked paths (what `git ls-files`
enumerates) together with the per-path state.  Only the values of `state`
at tracked paths are meaningful. -/
structure Repo where
  tracked : List String
  state : String → FileState

/-- The external git invocations `commit_changes` issues, in the order they
appear in the trace of a run: `git ls-files *ext` per configured
extension (line 101), `git add path` per modified file (line 219), and one
`git commit -m message` (line 222). -/
inductive GitOp where
  | lsFiles : String → GitOp
  | add : String → GitOp
  | commit : String → GitOp
deriving DecidableEq

/-- `git add p`: copy the working-tree content of `p` into the index;
nothing else changes. -/
def gitAdd (r : Repo) (p : String) : Repo :=
  { r with
    state := fun q =>
      if q = p then { r.state p with index := (r.state p).worktree } else r.state q }

/-- `git commit -m msg` without a pathspec (line 222): commit the whole
index, i.e. every path's `HEAD` content becomes its index content.  A
non-zero exit (e.g. nothing staged) leaves the state unchanged, which on
this model coincides with the identity, and the source ignores the exit
code either way. -/
def gitCommit (r : Repo) : Repo :=
  { r with state := fun q => { r.state q with head := (r.state q).index } }

/-- The word lists of `generate_commit_message` (lines 116-132). -/
def msgPrefixes : List String :=
  ["Fix", "Update", "Refactor", "Improve", "Optimize",
   "Add", "Remove", "Modify", "Enhance", "Clean up"]

/-- Second word list of `generate_commit_message`. -/
def msgComponents : List String :=
  ["documentation", "code style", "performance", "UI", "functionality",
   "tests", "comments", "error handling", "dependencies", "configuration"]

/-- Third word list of `generate_commit_message`. -/
def msgDetails : List String :=
  ["for better readability", "to follow best practices",
   "to address feedback", "based on code review",
   "to fix edge cases", "for maintainability",
   "to reduce complexity", "to improve efficiency",
   "to meet new requirements", "for consistency"]

/-- `generate_commit_message` (lines 114-138): `random.choice` from each
of the three fixed lists, joined by single spaces.  The three draws are
passed as indices into the lists. -/
def generate_commit_message (i j k : Nat) : String :=
  msgPrefixes.getD i "" ++ " " ++ msgComponents.getD j "" ++ " " ++ msgDetails.getD k ""

/-- The default `file_extensions` configuration (line 54), used by
`get_random_files`. -/
def interestingExts : List String := [".py", ".js", ".html", ".css", ".md"]

/-- Whether path `p` matches the glob `*ext` that `git ls-files` receives
(line 101): `ext` is a character suffix of `p`. -/
def matchesExt (p ext : String) : Bool := ext.data.isSuffixOf p.data

/-- `get_random_files`'s deterministic part (lines 96-108): for each
configured extension, `git ls-files *ext` lists the tracked paths matching
the glob, and the results are concatenated in extension order.  The final
`random.sample` is a separate draw (`CommitDraws.sample`). -/
def get_random_files (r : Repo) (exts : List String) : List String :=
  exts.foldl (fun acc ext => acc ++ r.tracked.filter (fun p => matchesExt p ext)) []

/-- The random draws consumed by one `commit_changes` run: the drawn
`num_files = randint(1, 3)`, the files drawn by `random.sample`, the
per-file modification draws, a per-file flag saying whether
`modify_file_content` hits an I/O exception (and hence returns `False`
after restoring its backup), and the three `generate_commit_message`
indices. -/
structure CommitDraws where
  numFiles : Nat
  sample : List String
  modDraw : String → ModDraw
  fail : String → Bool
  msgPick : Nat × Nat × Nat

/-- `modify_file_content` as seen from `commit_changes`: on a tracked,
readable file with no I/O failure it rewrites the working tree through
`modifyLines` and returns `True`; otherwise it returns `False` with the
working tree unchanged (the handler restores the backup written at the
start of the call; the `.bak` sibling itself is untracked and outside the
git state, so it is not represented here — the `FS`-level embedding above
covers it). -/
def modifyWorktree (r : Repo) (p : String) (d : ModDraw) (ioFail : Bool) : Repo × Bool :=
  if p ∈ r.tracked ∧ ioFail = false then
    ({ r with
       state := fun q =>
         if q = p then
           { r.state p with
             worktree := modifyLines d.action d.num d.stamp d.pos (r.state p).worktree }
         else r.state q }, true)
  else (r, false)

/-- One iteration of the modification loop of `commit_changes` (lines
206-208): mutate the file and, on success, append it to the
`modified_files` accumulator. -/
def modifyStep (d : CommitDraws) (acc : Repo × List String) (p : String) :
    Repo × List String :=
  let step := modifyWorktree acc.1 p (d.modDraw p) (d.fail p)
  if step.2 then (step.1, acc.2 ++ [p]) else (step.1, acc.2)

/-- The modification loop of `commit_changes` (lines 205-208): fold over
the sampled files, mutating each and collecting the successfully modified
ones in order. -/
def modifyLoop (d : CommitDraws) (chosen : List String) (r : Repo) : Repo × List String :=
  chosen.foldl (modifyStep d) (r, [])

/-- The observable outcome of one `commit_changes` run: the final git
state, the trace of external git invocations, and the bare boolean the
Python function returns. -/
structure RunResult where
  repo : Repo
  trace : List GitOp
  ok : Bool

set_option linter.unusedVariables false in
/-- `commit_changes` (source lines 193-235).

`exitCode` is the environment's exit code for each git invocation; the
source calls `subprocess.run` for `git add` and `git commit` without
`check` and without binding the result (lines 219 and 222), so the body
never consults it — faithfully, the parameter is unused.  Failures are
reported only through the returned boolean: no files found (line 202) or
no file successfully modified (line 212) return `False`; otherwise the run
adds every modified file, commits once with a generated message, and
returns `True`. -/
def commit_changes (r : Repo) (d : CommitDraws) (exitCode : GitOp → Int) : RunResult :=
  let valid := get_random_files r interestingExts
  let lsTrace := interestingExts.map GitOp.lsFiles
  if valid.isEmpty then { repo := r, trace := lsTrace, ok := false }
  else
    let step := modifyLoop d d.sample r
    if step.2.isEmpty then { repo := step.1, trace := lsTrace, ok := false }
    else
      let msg := generate_commit_message d.msgPick.1 d.msgPick.2.1 d.msgPick.2.2
      { repo := gitCommit (step.2.foldl gitAdd step.1),
        trace := lsTrace ++ step.2.map GitOp.add ++ [GitOp.commit msg],
        ok := true }

/-- The message carried by a commit invocation, if the invocation is one. -/
def msgOf : GitOp → Option String
  | GitOp.commit m => Option.some m
  | _ => Option.none

/-- The commit messages recorded in a run's trace, in order. -/
def commitMsgs (res : RunResult) : List String :=
  res.trace.filterMap msgOf

/-- The two-character `git status --porcelain` code of one file state, in
the modification-only fragment this program's states inhabit: the index
character is `M` when index and `HEAD` differ, the worktree character is
`M` when working tree and index differ, and a space otherwise. -/
def statusOf (fs : FileState) : Char × Char :=
  ((if fs.index = fs.head then ' ' else 'M'),
   (if fs.worktree = fs.index then ' ' else 'M'))

/-- The status codes the spec calls relevant: staged-modified (`M` then
space) and staged-and-worktree-modified (`M` then `M`). -/
def relevantStatuses : List (Char × Char) := [('M', ' '), ('M', 'M')]

/-- Modelled from the spec: the hunk-header test of the DiffSplitter
component, which is described in spec section 4.2 but has no code in
`src/` (no function of `auto_commit.py` parses or splits diffs).  A hunk
header is a line matching the marker `@@ ... @@`. -/
def isHunkHeader (l : String) : Bool := "@@".data.isPrefixOf l.data

/-- Modelled from the spec: the HunkBoundarySet of a DiffText — the line
indices of all hunk-header lines, in order.  The DiffText is represented
as its list of lines (each line without its terminator, so the spec's
trailing-newline normalization is the identity here). -/
def hunkHeaderIdxs (d : List String) : List Nat :=
  (List.range d.length).filter (fun i => isHunkHeader (d.getD i ""))

/-- Modelled from the spec: `DiffSplitter.split` (spec section 4.2), which
is absent from `src/`.  Scan the diff line by line recording every
hunk-header index; with no header fail (`MalformedDiff`); with one header
the first-hunk patch is the full diff; otherwise it is all lines strictly
before the second hunk header. -/
def splitDiff (d : List String) : Option (List String × List String) :=
  match hunkHeaderIdxs d with
  | [] => Option.none
  | [_] => Option.some (d, d)
  | _ :: i2 :: _ => Option.some (d, d.take i2)

/-- The line positions at which two same-file contents differ (comparing
line `i` of each, with a default for positions past either end).  This is
the edit set of a replacement-style modification, used to express "hunk"
on concrete states. -/
def changedIdx (old new : List String) : List Nat :=
  (List.range (max old.length new.length)).filter
    (fun i => old.getD i "" != new.getD i "")

/-- Number of additional hunks after the first in an ascending list of
changed line positions: a new unified-diff hunk starts when more than six
unchanged lines separate consecutive edits (two hunks of context three
merge when their context regions meet). -/
def hunkBreaks : Nat → List Nat → Nat
  | _, [] => 0
  | p, i :: rest => (if p + 6 < i then 1 else 0) + hunkBreaks i rest

/-- Number of unified-diff hunks in the modification turning `old` into
`new`, for same-length (replacement-only) modifications. -/
def hunkCount (old new : List String) : Nat :=
  match changedIdx old new with
  | [] => 0
  | i :: rest => 1 + hunkBreaks i rest

/-- The changed positions belonging to the first hunk: the maximal leading
run of `changedIdx` whose consecutive gaps are at most six. -/
def firstRunAux : Nat → List Nat → List Nat
  | _, [] => []
  | p, i :: rest => if p + 6 < i then [] else i :: firstRunAux i rest

/-- Changed positions of the first hunk of the modification `old → new`. -/
def firstHunkIdxs (old new : List String) : List Nat :=
  match changedIdx old new with
  | [] => []
  | i :: rest => i :: firstRunAux i rest

/-- `old` with exactly the first hunk of the modification `old → new`
applied: take the `new` line on first-hunk positions and the `old` line
elsewhere (for same-length, replacement-only modifications). -/
def applyFirstHunk (old new : List String) : List String :=
  (List.range (max old.length new.length)).map
    (fun i => if i ∈ firstHunkIdxs old new then new.getD i "" else old.getD i "")

/-- The configuration slice `add_repository` / `remove_repository` edit:
the `"repositories"` list (line 41 and lines 64-86). -/
structure Config where
  repositories : List String
deriving DecidableEq

/-- `add_repository` (source lines 64-76).  `hasGitDir q` models
`os.path.exists(os.path.join(q, ".git"))` and `abspath` models
`os.path.abspath`.  Invalid repository: return `False` without touching
the list; already present: return `False` without touching the list;
otherwise append the absolute path and return `True` (`save_config` only
writes the file and does not change the in-memory list). -/
def add_repository (hasGitDir : String → Bool) (abspath : String → String)
    (cfg : Config) (p : String) : Config × Bool :=
  let q := abspath p
  if hasGitDir q = false then (cfg, false)
  else if q ∈ cfg.repositories then (cfg, false)
  else ({ repositories := cfg.repositories ++ [q] }, true)

/-- `remove_repository` (source lines 78-86): if the absolute path is in
the list, `list.remove` deletes its first occurrence and the call returns
`True`; otherwise `False` with the list unchanged. -/
def remove_repository (abspath : String → String) (cfg : Config) (p : String) :
    Config × Bool :=
  let q := abspath p
  if q ∈ cfg.repositories then
    ({ repositories := cfg.repositories.erase q }, true)
  else (cfg, false)

/-! Concrete states and draws used to settle the claims on explicit runs. -/

/-- `HEAD` content of the file `a.py`: ten lines. -/
def c1Head : List String :=
  ["l0\n","l1\n","l2\n","l3\n","l4\n","l5\n","l6\n","l7\n","l8\n","l9\n"]

/-- Index content of `a.py`: a staged modification editing lines 0 and 9,
eight unchanged lines apart, hence two unified-diff hunks. -/
def c1Index : List String :=
  ["s0\n","l1\n","l2\n","l3\n","l4\n","l5\n","l6\n","l7\n","l8\n","s9\n"]

/-- Working-tree content of `a.py`: the staged content plus one further
unstaged edit at line 5. -/
def c1Worktree : List String :=
  ["s0\n","l1\n","l2\n","l3\n","l4\n","u5\n","l6\n","l7\n","l8\n","s9\n"]

/-- A repository with the single tracked file `a.py` in the state above. -/
def c1Repo : Repo :=
  { tracked := ["a.py"],
    state := fun _ => { head := c1Head, index := c1Index, worktree := c1Worktree } }

/-- Draws for a run on `c1Repo`: one file drawn (`a.py` is the only
tracked match, so `random.sample` must return it), the `add` action
inserting one comment at position 0, no I/O failure, message picks
(0,0,0). -/
def c1Draws : CommitDraws :=
  { numFiles := 1, sample := ["a.py"],
    modDraw := fun _ =>
      { action := Action.add, num := 1,
        stamp := fun _ => "2026-10-12 10:00:00", pos := fun _ => 0 },
    fail := fun _ => false,
    msgPick := (0, 0, 0) }

/-- The run of `commit_changes` on `c1Repo` with those draws, every git
invocation exiting 0. -/
def c1Run : RunResult := commit_changes c1Repo c1Draws (fun _ => 0)

/-- A repository whose only tracked file `c.py` is fully clean
(HEAD = index = working tree). -/
def c2Repo : Repo :=
  { tracked := ["c.py"],
    state := fun _ => { head := ["x\n"], index := ["x\n"], worktree := ["x\n"] } }

/-- Draws for the run on `c2Repo`: same shape as `c1Draws` with the single
tracked file `c.py`. -/
def c2Draws : CommitDraws :=
  { numFiles := 1, sample := ["c.py"],
    modDraw := fun _ =>
      { action := Action.add, num := 1,
        stamp := fun _ => "2026-10-12 10:00:00", pos := fun _ => 0 },
    fail := fun _ => false,
    msgPick := (0, 0, 0) }

/-- The run of `commit_changes` on `c2Repo`. -/
def c2Run : RunResult := commit_changes c2Repo c2Draws (fun _ => 0)

/-- Run on `c2Repo` with message picks (0,0,0). -/
def c3Run1 : RunResult :=
  commit_changes c2Repo { c2Draws with msgPick := (0, 0, 0) } (fun _ => 0)

/-- The same repository, the same draws except the three message picks,
the same exit codes. -/
def c3Run2 : RunResult :=
  commit_changes c2Repo { c2Draws with msgPick := (1, 1, 1) } (fun _ => 0)

/-- A repository with one tracked file `b.py` whose working tree is
modified but whose index equals `HEAD`: porcelain status code `" M"`,
i.e. worktree-modified only, not staged. -/
def c5Repo : Repo :=
  { tracked := ["b.py"],
    state := fun _ => { head := ["x\n"], index := ["x\n"], worktree := ["y\n"] } }

/-- Draws for the run on `c5Repo`. -/
def c5Draws : CommitDraws :=
  { numFiles := 1, sample := ["b.py"],
    modDraw := fun _ =>
      { action := Action.add, num := 1,
        stamp := fun _ => "2026-10-12 10:00:00", pos := fun _ => 0 },
    fail := fun _ => false,
    msgPick := (0, 0, 0) }

/-- The run of `commit_changes` on `c5Repo`. -/
def c5Run : RunResult := commit_changes c5Repo c5Draws (fun _ => 0)

/-- A file-system slice for `modify_file_content`: the target file is
present but unreadable as UTF-8, and a stale backup from an earlier call
sits next to it (the source only deletes backups in `commit_changes` after
a fully successful run, so this state is reachable). -/
def c8Pre : FS :=
  { file := Option.some ["current\n"], bak := Option.some ["stale\n"] }

/-- An arbitrary concrete draw for the `modify_file_content` call. -/
def c8Draw : ModDraw :=
  { action := Action.add, num := 1, stamp := fun _ => "t", pos := fun _ => 0 }

/-- `c5Repo` with a different index content for `b.py`: the same tracked
set but a staged-modified status.  Used to witness that the status never
influences what `commit_changes` does. -/
def c5RepoStaged : Repo :=
  { tracked := ["b.py"],
    state := fun _ => { head := ["x\n"], index := ["z\n"], worktree := ["y\n"] } }

/-- A concrete single-hunk unified diff document, line by line. -/
def singleHunkDiff : List String :=
  ["--- a/foo.py", "+++ b/foo.py", "@@ -1,2 +1,2 @@", " context", "-old", "+new"]

/-! Theorems settling the claims. -/

/-- C1, counterexample.  On `c1Repo` the staged modification of `a.py` has
two hunks and the run succeeds, but the new commit's content is not the
pre-operation `HEAD` content with exactly the first hunk applied (it is
the whole working tree plus a synthetic comment), and the pre-operation
unstaged edit at line 5 is not returned: afterwards the path has no
unstaged changes at all. -/
theorem commit_changes_first_hunk_cex :
    hunkCount c1Head c1Index = 2 ∧
    c1Run.ok = true ∧
    (c1Run.repo.state "a.py").head ≠ applyFirstHunk c1Head c1Index ∧
    changedIdx c1Index c1Worktree = [5] ∧
    changedIdx (c1Run.repo.state "a.py").index (c1Run.repo.state "a.py").worktree = [] := by
  decide

/-- C2, counterexample.  Running `commit_changes` on a fully clean
repository writes a synthetic auto-generated comment line — a line present
nowhere in the pre-operation working tree — into `c.py`'s working tree,
and then commits it: the core invents the very edits it commits. -/
theorem synthetic_edit_written_cex :
    (c2Repo.state "c.py").worktree = ["x\n"] ∧
    autoComment "2026-10-12 10:00:00" ∉ (c2Repo.state "c.py").worktree ∧
    (c2Run.repo.state "c.py").worktree =
      [autoComment "2026-10-12 10:00:00", "x\n"] ∧
    c2Run.ok = true ∧
    GitOp.commit "Fix documentation for better readability" ∈ c2Run.trace ∧
    (c2Run.repo.state "c.py").head = [autoComment "2026-10-12 10:00:00", "x\n"] := by
  decide

/-- C3, counterexample.  Two runs on the same repository with the same
caller input (`commit_changes` takes no message argument at all) and the
same per-file draws, differing only in the three internal
`generate_commit_message` random picks, record different commit messages —
so the recorded message is generated by the core, not supplied by the
caller. -/
theorem commit_message_generated_cex :
    commitMsgs c3Run1 = ["Fix documentation for better readability"] ∧
    commitMsgs c3Run2 = ["Update code style to follow best practices"] ∧
    commitMsgs c3Run1 ≠ commitMsgs c3Run2 := by
  decide

/-- C4, counterexample.  A run in which every external git invocation
exits 1 is indistinguishable from a run in which every invocation exits 0
— same state, same trace, same boolean — and it still reports success:
non-zero exits are silently ignored, and the only failure channel anywhere
in `commit_changes` is the bare boolean. -/
theorem exit_code_ignored_cex :
    commit_changes c1Repo c1Draws (fun _ => 1) =
      commit_changes c1Repo c1Draws (fun _ => 0) ∧
    (commit_changes c1Repo c1Draws (fun _ => 1)).ok = true := by
  exact ⟨rfl, by decide⟩

/-- C5, counterexample.  The file `b.py` has status `" M"`
(worktree-modified only), which is outside the relevant set
staged-modified / staged-and-worktree-modified; yet the run issues the
mutating gateway calls `git add b.py` and `git commit`, and both the index
and the working tree of `b.py` change. -/
theorem irrelevant_status_mutated_cex :
    statusOf (c5Repo.state "b.py") = (' ', 'M') ∧
    statusOf (c5Repo.state "b.py") ∉ relevantStatuses ∧
    c5Run.ok = true ∧
    GitOp.add "b.py" ∈ c5Run.trace ∧
    GitOp.commit "Fix documentation for better readability" ∈ c5Run.trace ∧
    (c5Run.repo.state "b.py").index ≠ (c5Repo.state "b.py").index ∧
    (c5Run.repo.state "b.py").worktree ≠ (c5Repo.state "b.py").worktree := by
  decide

/-- C8, counterexample.  `modify_file_content` fails while reading a
present-but-undecodable file next to a stale backup: it returns `False`,
and the handler overwrites the file with the stale backup content, so the
post-call content differs from the pre-call content. -/
theorem modify_restore_stale_bak_cex :
    (modify_file_content c8Pre c8Draw FailPoint.atRead).2 = false ∧
    (modify_file_content c8Pre c8Draw FailPoint.atRead).1.file =
      Option.some ["stale\n"] ∧
    (modify_file_content c8Pre c8Draw FailPoint.atRead).1.file ≠ c8Pre.file := by
  decide

/-- C6.  For every DiffText with exactly one hunk-header line, `split`
returns a first-hunk patch equal to the full diff (the line-level
representation makes the trailing-newline normalization the identity):
`split` is idempotent on single-hunk diffs. -/
theorem splitDiff_single_hunk_idempotent (d : List String)
    (h : (hunkHeaderIdxs d).length = 1) :
    splitDiff d = Option.some (d, d) := by
  obtain ⟨i, hi⟩ := List.length_eq_one.mp h
  simp [splitDiff, hi]

/-- C6, witness: the single-hunk diff `singleHunkDiff` has exactly one
hunk header and splits into itself. -/
theorem splitDiff_single_hunk_idempotent_witness :
    splitDiff singleHunkDiff = Option.some (singleHunkDiff, singleHunkDiff) :=
  splitDiff_single_hunk_idempotent singleHunkDiff (by decide)

/-- Folding comment insertions never shortens a list. -/
theorem length_le_foldl_insertIdx (g : Nat → String) (f : Nat → Nat)
    (is : List Nat) (l : List String) :
    l.length ≤ (is.foldl (fun acc i => acc.insertIdx (f i) (g i)) l).length := by
  induction is generalizing l with
  | nil => simp
  | cons i rest ih =>
      simpa using le_trans (List.length_le_length_insertIdx l (g i) (f i))
        (ih (l.insertIdx (f i) (g i)))

/-- Folding deletions removes at most one line per drawn index. -/
theorem foldl_eraseIdx_length (f : Nat → Nat) (is : List Nat) (l : List String) :
    l.length - is.length ≤ (is.foldl (fun acc i => acc.eraseIdx (f i)) l).length := by
  induction is generalizing l with
  | nil => simp
  | cons i rest ih =>
      have h1 := ih (l.eraseIdx (f i))
      have h2 : l.length - 1 ≤ (l.eraseIdx (f i)).length := by
        rw [List.length_eraseIdx]
        split <;> omega
      simp only [List.foldl_cons, List.length_cons]
      omega

/-- Folding in-place line rewrites preserves the length. -/
theorem foldl_set_length (stamp : Nat → String) (f : Nat → Nat)
    (is : List Nat) (l : List String) :
    (is.foldl
      (fun acc i => acc.set (f i) (modifiedLine (stamp i) (acc.getD (f i) ""))) l).length
      = l.length := by
  induction is generalizing l with
  | nil => simp
  | cons i rest ih =>
      simp only [List.foldl_cons]
      rw [ih, List.length_set]

/-- C9.  For every input of `n` lines and every draw, `modifyLines` leaves
at least `n - n / 3` lines: the `add` branch only inserts, the in-place
rewrite branch preserves the length, and the `remove` branch — entered
only when `n` exceeds twice the drawn change count — deletes at most
`min num (n / 3) ≤ n / 3` lines.  Consequently a non-empty file is never
emptied. -/
theorem modifyLines_length_bound (a : Action) (num : Nat) (stamp : Nat → String)
    (pos : Nat → Nat) (lines : List String) :
    lines.length - lines.length / 3 ≤ (modifyLines a num stamp pos lines).length ∧
    (1 ≤ lines.length → 1 ≤ (modifyLines a num stamp pos lines).length) := by
  have key : lines.length - lines.length / 3 ≤ (modifyLines a num stamp pos lines).length := by
    cases a with
    | add =>
        exact le_trans (Nat.sub_le _ _)
          (length_le_foldl_insertIdx (fun i => autoComment (stamp i)) pos _ lines)
    | remove =>
        rw [modifyLines]
        split
        · have h := foldl_eraseIdx_length pos
            (List.range (min num (lines.length / 3))) lines
          rw [List.length_range] at h
          have : lines.length - lines.length / 3
              ≤ lines.length - min num (lines.length / 3) := by omega
          omega
        · rw [foldl_set_length]
          omega
    | modify =>
        rw [modifyLines, foldl_set_length]
        omega
  refine ⟨key, fun h1 => ?_⟩
  have h3 : lines.length / 3 < lines.length := Nat.div_lt_self h1 (by omega)
  omega

/-- C9, witness: a three-line file under a `remove` draw of two changes
keeps at least two lines (here the guard `3 > 2 * 2` fails, so the rewrite
branch runs and all three lines remain). -/
theorem modifyLines_length_bound_witness :
    (1 : Nat) ≤ 3 ∧
    1 ≤ (modifyLines Action.remove 2 (fun _ => "t") (fun _ => 0)
          ["a\n", "b\n", "c\n"]).length :=
  ⟨by decide,
   (modifyLines_length_bound Action.remove 2 (fun _ => "t") (fun _ => 0)
      ["a\n", "b\n", "c\n"]).2 (by decide)⟩

/-- C10.  For a path whose absolute form has a `.git` entry and is not yet
configured: `add_repository` returns `True` and appends the absolute path;
`remove_repository` on the same path then returns `True` and restores the
original list (Python's `list.remove` deletes the first occurrence, which
is the appended one); and adding the now-present path again returns
`False` and leaves the configuration unchanged. -/
theorem add_remove_repository_round_trip (g : String → Bool)
    (ab : String → String) (cfg : Config) (p : String)
    (hgit : g (ab p) = true) (hnew : ab p ∉ cfg.repositories) :
    add_repository g ab cfg p = ({ repositories := cfg.repositories ++ [ab p] }, true) ∧
    remove_repository ab (add_repository g ab cfg p).1 p = (cfg, true) ∧
    add_repository g ab (add_repository g ab cfg p).1 p =
      ((add_repository g ab cfg p).1, false) := by
  have hadd : add_repository g ab cfg p =
      ({ repositories := cfg.repositories ++ [ab p] }, true) := by
    simp [add_repository, hgit, hnew]
  refine ⟨hadd, ?_, ?_⟩
  · rw [hadd]
    have herase : (cfg.repositories ++ [ab p]).erase (ab p) = cfg.repositories := by
      rw [List.erase_append_right _ hnew]
      simp
    simp [remove_repository, herase]
  · rw [hadd]
    simp [add_repository, hgit]

/-- C10, witness: adding the valid new path `/r` to an empty configuration
and removing it again restores the empty list. -/
theorem add_remove_repository_round_trip_witness :
    remove_repository id
      (add_repository (fun _ => true) id { repositories := [] } "/r").1 "/r" =
      ({ repositories := [] }, true) :=
  (add_remove_repository_round_trip (fun _ => true) id
    { repositories := [] } "/r" rfl (by decide)).2.1

/-- C8 amended.  When the exception interrupting `modify_file_content`
occurs after the backup of this call was written (here: during the final
write-back), the handler restores the file to exactly its pre-call
content; and a read failure with no backup file present leaves the file
untouched.  (The stale-backup read-failure case is the exception recorded
by `modify_restore_stale_bak_cex`.) -/
theorem modify_file_content_restores_after_backup (fs : FS) (d : ModDraw)
    (l : List String) (hf : fs.file = Option.some l) :
    modify_file_content fs d FailPoint.atWrite =
      ({ file := Option.some l, bak := Option.none }, false) ∧
    (fs.bak = Option.none →
      modify_file_content fs d FailPoint.atRead = (fs, false)) := by
  constructor
  · simp [modify_file_content, hf, restoreBak]
  · intro hb
    simp [modify_file_content, hf, restoreBak, hb]

/-- C8 amended, witness: a readable one-line file is restored bit-for-bit
after a write-back failure. -/
theorem modify_file_content_restores_after_backup_witness :
    modify_file_content { file := Option.some ["a\n"], bak := Option.none }
        c8Draw FailPoint.atWrite =
      ({ file := Option.some ["a\n"], bak := Option.none }, false) :=
  (modify_file_content_restores_after_backup
    { file := Option.some ["a\n"], bak := Option.none } c8Draw ["a\n"] rfl).1

/-- C4 amended.  `commit_changes` never consults the exit codes of the git
invocations it issues: its entire observable outcome — final repository
state, trace, and the bare boolean that is its only failure channel — is
identical for any two exit-code assignments. -/
theorem commit_changes_ignores_exit_codes (r : Repo) (d : CommitDraws)
    (ec ec' : GitOp → Int) :
    commit_changes r d ec = commit_changes r d ec' := rfl

/-- `modifyWorktree` never changes the tracked set. -/
theorem modifyWorktree_tracked (r : Repo) (p : String) (d : ModDraw) (b : Bool) :
    (modifyWorktree r p d b).1.tracked = r.tracked := by
  rw [modifyWorktree]
  split <;> rfl

/-- `modifyWorktree` on `q` leaves every other path's state unchanged. -/
theorem modifyWorktree_state_ne (r : Repo) (q p : String) (d : ModDraw) (b : Bool)
    (h : p ≠ q) : (modifyWorktree r q d b).1.state p = r.state p := by
  rw [modifyWorktree]
  split
  · simp [h]
  · rfl

/-- Successful `modifyWorktree`: tracked file, no I/O failure. -/
theorem modifyWorktree_success (r : Repo) (p : String) (d : ModDraw)
    (ht : p ∈ r.tracked) :
    modifyWorktree r p d false =
      ({ r with
          state := fun q =>
            if q = p then
              { r.state p with
                worktree := modifyLines d.action d.num d.stamp d.pos (r.state p).worktree }
            else r.state q }, true) := by
  rw [modifyWorktree, if_pos ⟨ht, rfl⟩]

/-- Whether `modifyWorktree` reports success, as a boolean of its
inputs. -/
theorem modifyWorktree_snd (r : Repo) (p : String) (d : ModDraw) (b : Bool) :
    (modifyWorktree r p d b).2 = (decide (p ∈ r.tracked) && !b) := by
  by_cases ht : p ∈ r.tracked <;> cases b <;> simp [modifyWorktree, ht]

/-- One loop iteration never changes the tracked set. -/
theorem modifyStep_fst_tracked (d : CommitDraws) (acc : Repo × List String)
    (p : String) : ((modifyStep d acc p).1).tracked = acc.1.tracked := by
  simp only [modifyStep]
  split <;> exact modifyWorktree_tracked _ _ _ _

/-- One loop iteration on `q` leaves every other path's state unchanged. -/
theorem modifyStep_fst_state_ne (d : CommitDraws) (acc : Repo × List String)
    (q p : String) (h : p ≠ q) :
    ((modifyStep d acc q).1).state p = acc.1.state p := by
  simp only [modifyStep]
  split <;> exact modifyWorktree_state_ne _ _ _ _ _ h

/-- The modification loop never changes the tracked set. -/
theorem foldl_modifyStep_tracked (d : CommitDraws) (chosen : List String) :
    ∀ init : Repo × List String,
      ((chosen.foldl (modifyStep d) init).1).tracked = init.1.tracked := by
  induction chosen with
  | nil => intro init; rfl
  | cons q rest ih =>
      intro init
      rw [List.foldl_cons, ih, modifyStep_fst_tracked]

/-- The `modified_files` list the loop produces is exactly the chosen
files that are tracked and hit no I/O failure, in order: success of one
file depends only on static data, never on the evolving state. -/
theorem foldl_modifyStep_snd (d : CommitDraws) (chosen : List String) :
    ∀ init : Repo × List String,
      (chosen.foldl (modifyStep d) init).2 =
        init.2 ++ chosen.filter (fun p => decide (p ∈ init.1.tracked) && !(d.fail p)) := by
  induction chosen with
  | nil => intro init; simp
  | cons q rest ih =>
      intro init
      rw [List.foldl_cons, ih, List.filter_cons]
      simp only [modifyStep_fst_tracked]
      by_cases h : (decide (q ∈ init.1.tracked) && !(d.fail q)) = true
      · have hs : (modifyWorktree init.1 q (d.modDraw q) (d.fail q)).2 = true := by
          rw [modifyWorktree_snd]; exact h
        simp only [modifyStep, hs, if_pos, h, if_true]
        simp
      · have hs : (modifyWorktree init.1 q (d.modDraw q) (d.fail q)).2 = false := by
          rw [modifyWorktree_snd]; exact Bool.not_eq_true _ ▸ (by simpa using h)
        simp only [modifyStep, hs]
        simp [h]

/-- The loop leaves the state of any file outside the chosen list
unchanged. -/
theorem foldl_modifyStep_state_ne (d : CommitDraws) (chosen : List String)
    (p : String) (hp : p ∉ chosen) :
    ∀ init : Repo × List String,
      ((chosen.foldl (modifyStep d) init).1).state p = init.1.state p := by
  induction chosen with
  | nil => intro init; rfl
  | cons q rest ih =>
      intro init
      have hpq : p ≠ q := fun h => hp (h ▸ List.mem_cons_self q rest)
      have hpr : p ∉ rest := fun h => hp (List.mem_cons_of_mem q h)
      rw [List.foldl_cons, ih hpr, modifyStep_fst_state_ne d init q p hpq]

/-- For a chosen, tracked, failure-free file `p` (and no duplicate draws),
the loop rewrites exactly `p`'s working tree through `modifyLines`. -/
theorem foldl_modifyStep_state_mem (d : CommitDraws) (chosen : List String)
    (p : String) :
    chosen.Nodup → p ∈ chosen →
    ∀ init : Repo × List String, p ∈ init.1.tracked → d.fail p = false →
      ((chosen.foldl (modifyStep d) init).1).state p =
        { init.1.state p with
          worktree := modifyLines (d.modDraw p).action (d.modDraw p).num
            (d.modDraw p).stamp (d.modDraw p).pos (init.1.state p).worktree } := by
  induction chosen with
  | nil => intro _ hp; cases hp
  | cons q rest ih =>
      intro hnd hp init hin hfail
      rw [List.foldl_cons]
      rcases List.mem_cons.mp hp with hq | hr
      · subst hq
        have hq_notin : p ∉ rest := (List.nodup_cons.mp hnd).1
        rw [foldl_modifyStep_state_ne d rest p hq_notin]
        simp only [modifyStep]
        rw [hfail, modifyWorktree_success init.1 p _ hin]
        simp
      · have hq_ne : p ≠ q := by
          intro h
          exact (List.nodup_cons.mp hnd).1 (h ▸ hr)
        have hstep := ih (List.nodup_cons.mp hnd).2 hr (modifyStep d init q)
          (by rw [modifyStep_fst_tracked]; exact hin) hfail
        rw [hstep, modifyStep_fst_state_ne d init q p hq_ne]

/-- Folding `git add` over a list of paths: a path in the list ends with
its index equal to its (unchanged) working tree; any other path is
untouched. -/
theorem foldl_gitAdd_state (l : List String) (p : String) :
    ∀ r : Repo,
      (l.foldl gitAdd r).state p =
        if p ∈ l then { r.state p with index := (r.state p).worktree }
        else r.state p := by
  induction l with
  | nil => intro r; simp
  | cons q rest ih =>
      intro r
      rw [List.foldl_cons, ih]
      by_cases hq : p = q
      · subst hq
        have hg : (gitAdd r p).state p =
            { r.state p with index := (r.state p).worktree } := by
          simp [gitAdd]
        rw [hg]
        by_cases hr : p ∈ rest <;> simp [hr]
      · have hg : (gitAdd r q).state p = r.state p := by
          simp [gitAdd, hq]
        rw [hg]
        simp [List.mem_cons, hq]

/-- `git commit` turns every path's `HEAD` into its index content. -/
theorem gitCommit_state (r : Repo) (p : String) :
    (gitCommit r).state p = { r.state p with head := (r.state p).index } := rfl

/-- If `commit_changes` reports success, neither early-return fired. -/
theorem commit_changes_ok_cases (r : Repo) (d : CommitDraws) (ec : GitOp → Int)
    (hok : (commit_changes r d ec).ok = true) :
    (get_random_files r interestingExts).isEmpty = false ∧
    ((modifyLoop d d.sample r).2).isEmpty = false := by
  rw [commit_changes] at hok
  by_cases h1 : (get_random_files r interestingExts).isEmpty <;>
    by_cases h2 : ((modifyLoop d d.sample r).2).isEmpty <;>
      simp [h1, h2] at hok ⊢

/-- The success branch of `commit_changes`, written out. -/
theorem commit_changes_success (r : Repo) (d : CommitDraws) (ec : GitOp → Int)
    (h1 : (get_random_files r interestingExts).isEmpty = false)
    (h2 : ((modifyLoop d d.sample r).2).isEmpty = false) :
    commit_changes r d ec =
      { repo := gitCommit
          ((modifyLoop d d.sample r).2.foldl gitAdd (modifyLoop d d.sample r).1),
        trace := (interestingExts.map GitOp.lsFiles)
          ++ (modifyLoop d d.sample r).2.map GitOp.add
          ++ [GitOp.commit
              (generate_commit_message d.msgPick.1 d.msgPick.2.1 d.msgPick.2.2)],
        ok := true } := by
  rw [commit_changes]
  simp [h1, h2]

/-- A `git add p` in a successful trace means the loop modified `p`. -/
theorem add_mem_modified (r : Repo) (d : CommitDraws) (ec : GitOp → Int)
    (p : String) (hok : (commit_changes r d ec).ok = true)
    (hp : GitOp.add p ∈ (commit_changes r d ec).trace) :
    p ∈ (modifyLoop d d.sample r).2 := by
  obtain ⟨h1, h2⟩ := commit_changes_ok_cases r d ec hok
  rw [commit_changes_success r d ec h1 h2] at hp
  simp only [List.mem_append, List.mem_map, List.mem_cons, List.not_mem_nil,
    or_false] at hp
  rcases hp with (⟨e, _, he⟩ | ⟨q, hq, he⟩) | he
  · cases he
  · cases he; exact hq
  · cases he

/-- The modified list is the sampled files filtered by the static success
condition. -/
theorem modifyLoop_snd (d : CommitDraws) (chosen : List String) (r : Repo) :
    (modifyLoop d chosen r).2 =
      chosen.filter (fun p => decide (p ∈ r.tracked) && !(d.fail p)) := by
  rw [modifyLoop, foldl_modifyStep_snd]
  simp

/-- C1 amended.  A successful `commit_changes` run never isolates a first
hunk: for every path it staged (every `git add p` in the trace), the new
commit's content for `p` is the file's entire post-modification working
tree — all staged hunks together with every worktree and synthetic edit —
and afterwards the path has no unstaged changes left (index equals
working tree), so pre-operation pending changes are not returned. -/
theorem commit_changes_commits_entire_worktree (r : Repo) (d : CommitDraws)
    (ec : GitOp → Int) (p : String)
    (hok : (commit_changes r d ec).ok = true)
    (hp : GitOp.add p ∈ (commit_changes r d ec).trace) :
    ((commit_changes r d ec).repo.state p).head
      = ((commit_changes r d ec).repo.state p).worktree ∧
    ((commit_changes r d ec).repo.state p).index
      = ((commit_changes r d ec).repo.state p).worktree := by
  obtain ⟨h1, h2⟩ := commit_changes_ok_cases r d ec hok
  have hpm := add_mem_modified r d ec p hok hp
  rw [commit_changes_success r d ec h1 h2]
  simp only []
  rw [gitCommit_state, foldl_gitAdd_state, if_pos hpm]
  exact ⟨rfl, rfl⟩

/-- C1 amended, witness: on `c1Repo` the run succeeds, stages `a.py`, and
leaves `HEAD`, index and working tree of `a.py` all equal. -/
theorem commit_changes_commits_entire_worktree_witness :
    ((commit_changes c1Repo c1Draws (fun _ => 0)).repo.state "a.py").head
      = ((commit_changes c1Repo c1Draws (fun _ => 0)).repo.state "a.py").worktree ∧
    ((commit_changes c1Repo c1Draws (fun _ => 0)).repo.state "a.py").index
      = ((commit_changes c1Repo c1Draws (fun _ => 0)).repo.state "a.py").worktree :=
  commit_changes_commits_entire_worktree c1Repo c1Draws (fun _ => 0) "a.py"
    (by decide) (by decide)

/-- C2 amended.  The core invents the edits it commits: for every path
`p` that a successful run (with distinct sampled files) stages, the
committed content is exactly `modifyLines` — the synthetic mutator
inserting auto-generated comments, deleting lines, or rewriting lines —
applied to `p`'s pre-operation working tree, written into the working
tree before the `git add`/`git commit` calls. -/
theorem commit_changes_writes_synthetic_edits (r : Repo) (d : CommitDraws)
    (ec : GitOp → Int) (p : String) (hnd : d.sample.Nodup)
    (hok : (commit_changes r d ec).ok = true)
    (hp : GitOp.add p ∈ (commit_changes r d ec).trace) :
    ((commit_changes r d ec).repo.state p).worktree =
      modifyLines (d.modDraw p).action (d.modDraw p).num (d.modDraw p).stamp
        (d.modDraw p).pos ((r.state p).worktree) ∧
    ((commit_changes r d ec).repo.state p).head
      = ((commit_changes r d ec).repo.state p).worktree := by
  obtain ⟨h1, h2⟩ := commit_changes_ok_cases r d ec hok
  have hpm := add_mem_modified r d ec p hok hp
  have hfil := modifyLoop_snd d d.sample r
  have hmem := List.mem_filter.mp (hfil ▸ hpm)
  have ht : p ∈ r.tracked := by
    have := hmem.2
    simp at this
    exact this.1
  have hf : d.fail p = false := by
    have := hmem.2
    simp at this
    exact this.2
  have hr1 : (modifyLoop d d.sample r).1.state p =
      { r.state p with
        worktree := modifyLines (d.modDraw p).action (d.modDraw p).num
          (d.modDraw p).stamp (d.modDraw p).pos (r.state p).worktree } := by
    rw [modifyLoop]
    exact foldl_modifyStep_state_mem d d.sample p hnd hmem.1 (r, []) ht hf
  rw [commit_changes_success r d ec h1 h2]
  simp only []
  rw [gitCommit_state, foldl_gitAdd_state, if_pos hpm, hr1]
  exact ⟨rfl, rfl⟩

/-- C2 amended, witness: on the clean repository `c2Repo` the committed
content of `c.py` is `modifyLines` applied to its pre-run working tree. -/
theorem commit_changes_writes_synthetic_edits_witness :
    ((commit_changes c2Repo c2Draws (fun _ => 0)).repo.state "c.py").worktree =
      modifyLines (c2Draws.modDraw "c.py").action (c2Draws.modDraw "c.py").num
        (c2Draws.modDraw "c.py").stamp (c2Draws.modDraw "c.py").pos
        ((c2Repo.state "c.py").worktree) ∧
    ((commit_changes c2Repo c2Draws (fun _ => 0)).repo.state "c.py").head
      = ((commit_changes c2Repo c2Draws (fun _ => 0)).repo.state "c.py").worktree :=
  commit_changes_writes_synthetic_edits c2Repo c2Draws (fun _ => 0) "c.py"
    (by decide) (by decide) (by decide)

/-- A trace of `ls-files` invocations records no commit message. -/
theorem filterMap_msgOf_lsFiles (exts : List String) :
    (exts.map GitOp.lsFiles).filterMap msgOf = [] := by
  induction exts with
  | nil => rfl
  | cons e rest ih => simp [msgOf, ih]

/-- A trace of `add` invocations records no commit message. -/
theorem filterMap_msgOf_adds (ps : List String) :
    (ps.map GitOp.add).filterMap msgOf = [] := by
  induction ps with
  | nil => rfl
  | cons q rest ih => simp [msgOf, ih]

/-- C3 amended.  `commit_changes` accepts no caller message: the single
message every successful run records is produced internally by
`generate_commit_message` from its three random picks into the fixed word
lists. -/
theorem commit_message_from_generator (r : Repo) (d : CommitDraws)
    (ec : GitOp → Int) (hok : (commit_changes r d ec).ok = true) :
    commitMsgs (commit_changes r d ec) =
      [generate_commit_message d.msgPick.1 d.msgPick.2.1 d.msgPick.2.2] := by
  obtain ⟨h1, h2⟩ := commit_changes_ok_cases r d ec hok
  rw [commit_changes_success r d ec h1 h2, commitMsgs]
  simp only []
  rw [List.filterMap_append, List.filterMap_append,
    filterMap_msgOf_lsFiles, filterMap_msgOf_adds]
  simp [msgOf]

/-- C3 amended, witness: the run on `c1Repo` records exactly the message
generated from picks (0,0,0). -/
theorem commit_message_from_generator_witness :
    commitMsgs (commit_changes c1Repo c1Draws (fun _ => 0)) =
      [generate_commit_message c1Draws.msgPick.1 c1Draws.msgPick.2.1
        c1Draws.msgPick.2.2] :=
  commit_message_from_generator c1Repo c1Draws (fun _ => 0) (by decide)

/-- C5 amended.  `commit_changes` never reads a file's status: its entire
decision — which git invocations to issue and whether to report success —
depends only on the tracked paths and the draws, so two repositories with
the same tracked set but arbitrarily different HEAD/index/worktree
contents (hence arbitrarily different status codes) produce the same
trace and the same boolean. -/
theorem commit_changes_ignores_status (r r' : Repo) (d : CommitDraws)
    (ec : GitOp → Int) (ht : r.tracked = r'.tracked) :
    (commit_changes r d ec).trace = (commit_changes r' d ec).trace ∧
    (commit_changes r d ec).ok = (commit_changes r' d ec).ok := by
  have hv : get_random_files r interestingExts = get_random_files r' interestingExts := by
    rw [get_random_files, get_random_files, ht]
  have hm : (modifyLoop d d.sample r).2 = (modifyLoop d d.sample r').2 := by
    rw [modifyLoop_snd, modifyLoop_snd, ht]
  by_cases h1 : (get_random_files r' interestingExts).isEmpty <;>
    by_cases h2 : ((modifyLoop d d.sample r').2).isEmpty <;>
      rw [commit_changes, commit_changes] <;>
        simp [hv, hm, h1, h2]

/-- C5 amended, witness: `c5Repo` (status `" M"`) and `c5RepoStaged`
(status `"MM"`) receive identical traces and results. -/
theorem commit_changes_ignores_status_witness :
    (commit_changes c5Repo c5Draws (fun _ => 0)).trace
      = (commit_changes c5RepoStaged c5Draws (fun _ => 0)).trace ∧
    (commit_changes c5Repo c5Draws (fun _ => 0)).ok
      = (commit_changes c5RepoStaged c5Draws (fun _ => 0)).ok :=
  commit_changes_ignores_status c5Repo c5RepoStaged c5Draws (fun _ => 0) rfl

/-- No `git add` hides among the `ls-files` invocations. -/
theorem count_add_map_lsFiles (exts : List String) (p : String) :
    (exts.map GitOp.lsFiles).count (GitOp.add p) = 0 :=
  List.count_eq_zero.mpr (by simp)

/-- No `git commit` hides among the `ls-files` invocations. -/
theorem count_commit_map_lsFiles (exts : List String) (m : String) :
    (exts.map GitOp.lsFiles).count (GitOp.commit m) = 0 :=
  List.count_eq_zero.mpr (by simp)

/-- No `git commit` hides among the `add` invocations. -/
theorem count_commit_map_adds (ps : List String) (m : String) :
    (ps.map GitOp.add).count (GitOp.commit m) = 0 :=
  List.count_eq_zero.mpr (by simp)

/-- No `ls-files` hides among the `add` invocations. -/
theorem count_lsFiles_map_adds (ps : List String) (e : String) :
    (ps.map GitOp.add).count (GitOp.lsFiles e) = 0 :=
  List.count_eq_zero.mpr (by simp)

/-- Each `git add p` occurs as often among the add invocations as `p`
occurs among the files that were modified. -/
theorem count_add_map_adds (ps : List String) (p : String) :
    (ps.map GitOp.add).count (GitOp.add p) = ps.count p :=
  List.count_map_of_injective ps GitOp.add (fun _ _ h => by injection h) p

/-- C7.  `commit_changes` retries nothing: in every run's trace each
`git ls-files` extension query and (when the sampled files are distinct,
as `random.sample` guarantees) each `git add p` appears at most once and
at most one `git commit` is issued; and when the run fails, the failure is
terminal — the bare-`False` report goes up with no mutating invocation in
the trace at all. -/
theorem commit_changes_no_retry (r : Repo) (d : CommitDraws) (ec : GitOp → Int)
    (p m e : String) (hnd : d.sample.Nodup) :
    (commit_changes r d ec).trace.count (GitOp.add p) ≤ 1 ∧
    (commit_changes r d ec).trace.count (GitOp.commit m) ≤ 1 ∧
    (commit_changes r d ec).trace.count (GitOp.lsFiles e) ≤ 1 ∧
    ((commit_changes r d ec).ok = false →
      (commit_changes r d ec).trace.count (GitOp.add p) = 0 ∧
      (commit_changes r d ec).trace.count (GitOp.commit m) = 0) := by
  have hls : (interestingExts.map GitOp.lsFiles).count (GitOp.lsFiles e) ≤ 1 := by
    rw [List.count_map_of_injective interestingExts GitOp.lsFiles
      (fun _ _ h => by injection h) e]
    exact List.nodup_iff_count_le_one.mp (by decide) e
  by_cases h1 : (get_random_files r interestingExts).isEmpty
  · have hrw : commit_changes r d ec =
        { repo := r, trace := interestingExts.map GitOp.lsFiles, ok := false } := by
      rw [commit_changes]; simp [h1]
    rw [hrw]
    exact ⟨by simp [count_add_map_lsFiles], by simp [count_commit_map_lsFiles], hls,
      fun _ => ⟨count_add_map_lsFiles _ _, count_commit_map_lsFiles _ _⟩⟩
  · by_cases h2 : ((modifyLoop d d.sample r).2).isEmpty
    · have hrw : commit_changes r d ec =
          { repo := (modifyLoop d d.sample r).1,
            trace := interestingExts.map GitOp.lsFiles, ok := false } := by
        rw [commit_changes]; simp [h1, h2]
      rw [hrw]
      exact ⟨by simp [count_add_map_lsFiles], by simp [count_commit_map_lsFiles], hls,
        fun _ => ⟨count_add_map_lsFiles _ _, count_commit_map_lsFiles _ _⟩⟩
    · have h1' : (get_random_files r interestingExts).isEmpty = false := by
        simpa using h1
      have h2' : ((modifyLoop d d.sample r).2).isEmpty = false := by
        simpa using h2
      have hmodcount : ((modifyLoop d d.sample r).2).count p ≤ 1 := by
        rw [modifyLoop_snd]
        exact le_trans ((List.filter_sublist d.sample).count_le p)
          (List.nodup_iff_count_le_one.mp hnd p)
      rw [commit_changes_success r d ec h1' h2']
      simp only [List.count_append]
      refine ⟨?_, ?_, ?_, ?_⟩
      · rw [count_add_map_lsFiles, count_add_map_adds, List.count_singleton]
        have : (if GitOp.commit
            (generate_commit_message d.msgPick.1 d.msgPick.2.1 d.msgPick.2.2)
              == GitOp.add p then 1 else 0) = 0 := by simp
        omega
      · rw [count_commit_map_lsFiles, count_commit_map_adds, List.count_singleton]
        split <;> omega
      · rw [count_lsFiles_map_adds, List.count_singleton]
        have : (if GitOp.commit
            (generate_commit_message d.msgPick.1 d.msgPick.2.1 d.msgPick.2.2)
              == GitOp.lsFiles e then 1 else 0) = 0 := by simp
        omega
      · intro hfalse
        simp at hfalse

/-- C7, witness: the run on `c1Repo` issues `git add a.py`, `git commit`
and the `.py` listing each at most once. -/
theorem commit_changes_no_retry_witness :
    (commit_changes c1Repo c1Draws (fun _ => 0)).trace.count (GitOp.add "a.py") ≤ 1 ∧
    (commit_changes c1Repo c1Draws (fun _ => 0)).trace.count
      (GitOp.commit "Fix documentation for better readability") ≤ 1 ∧
    (commit_changes c1Repo c1Draws (fun _ => 0)).trace.count (GitOp.lsFiles ".py") ≤ 1 ∧
    ((commit_changes c1Repo c1Draws (fun _ => 0)).ok = false →
      (commit_changes c1Repo c1Draws (fun _ => 0)).trace.count (GitOp.add "a.py") = 0 ∧
      (commit_changes c1Repo c1Draws (fun _ => 0)).trace.count
        (GitOp.commit "Fix documentation for better readability") = 0) :=
  commit_changes_no_retry c1Repo c1Draws (fun _ => 0) "a.py"
    "Fix documentation for better readability" ".py" (by decide)

end AutoCommit
